import Mathlib

/-!
Verification of the calibration pipeline of the ISMCO2021 tutorial
(notebook part3_calibration.ipynb): logistic tumor-growth forward model,
synthetic data generation with clipping, Gaussian log-likelihood point
estimation, and the Bayesian log-prior / log-posterior used for MCMC.

Real-valued numpy computations are embedded over ℝ; quantities that the
Python code can set to -inf (the log-prior and the log-posterior) take
values in EReal, where ⊥ plays the role of -np.inf.  The external scipy
integrator odeint is abstracted as a function argument producing the
trajectory aligned with the time grid.
-/

namespace ISMCO

open Real

/-- Parameter vector for the 3-parameter maximum-likelihood run:
theta = (r, K, sigma), unpacked in the source as
cal_r, cal_K, cal_sigma = theta. -/
structure Theta3 where
  r : ℝ
  K : ℝ
  sigma : ℝ

/-- Parameter vector for the 4-parameter runs (calibrated initial
condition): theta = (r, K, sigma, ic), unpacked in the source as
cal_r, cal_K, cal_sigma, cal_ic = theta. -/
structure Theta4 where
  r : ℝ
  K : ℝ
  sigma : ℝ
  ic : ℝ

/-- Right-hand side of the logistic model, from the source:
def control_tumor(y, t, theta): return theta[0] * y[0] * (1.0 - y[0] / theta[1]).
The state is scalar (y[0]) and theta = (r, K). -/
noncomputable def control_tumor (y : ℝ) (t : ℝ) (theta : ℝ × ℝ) : ℝ :=
  theta.1 * y * (1.0 - y / theta.2)

/-- Type of the external ODE integrator (scipy.integrate.odeint) for the
scalar model: it receives the right-hand side, the initial state y0, the
time grid, and the parameter pair, and returns the trajectory aligned
index-for-index with the time grid. -/
def OdeIntegrator : Type :=
  (ℝ → ℝ → ℝ × ℝ → ℝ) → ℝ → List ℝ → ℝ × ℝ → List ℝ

/-- The variance computed inside the likelihood functions, from the
source line: variance = cal_sigma*cal_sigma. -/
noncomputable def variance (theta : Theta4) : ℝ :=
  theta.sigma * theta.sigma

/-- Gaussian log-likelihood of the 3-parameter run, from the source:
model = odeint(control_tumor, t=times, y0=y[0], args=([cal_r,cal_K],));
variance = cal_sigma*cal_sigma;
return -0.5 * np.sum(np.log(2*np.pi)+np.log(variance) + (y - model) ** 2 / variance). -/
noncomputable def log_likelihood (odeintF : OdeIntegrator) (theta : Theta3)
    (times y : List ℝ) : ℝ :=
  let model := odeintF control_tumor (y.headD 0) times (theta.r, theta.K);
  let var := theta.sigma * theta.sigma;
  -0.5 * (((y.zip model).map
    (fun p => Real.log (2 * Real.pi) + Real.log var + (p.1 - p.2) ^ 2 / var)).sum)

/-- Gaussian log-likelihood of the 4-parameter run (calibrated initial
condition), from the source:
model = odeint(control_tumor, t=times, y0=cal_ic, args=([cal_r,cal_K],));
variance = cal_sigma*cal_sigma;
return -0.5 * np.sum((y - model) ** 2 / variance + np.log(2*np.pi) + np.log(variance)). -/
noncomputable def log_likelihood_ic (odeintF : OdeIntegrator) (theta : Theta4)
    (times y : List ℝ) : ℝ :=
  let model := odeintF control_tumor theta.ic times (theta.r, theta.K);
  -0.5 * (((y.zip model).map
    (fun p => (p.1 - p.2) ^ 2 / variance theta + Real.log (2 * Real.pi)
      + Real.log (variance theta))).sum)

/-- Negative log-likelihood objective handed to scipy.optimize.minimize,
from the source: nll = lambda *args: -log_likelihood(*args). -/
noncomputable def nll (odeintF : OdeIntegrator) (theta : Theta3)
    (times y : List ℝ) : ℝ :=
  -(log_likelihood odeintF theta times y)

/-- Uniform log-prior over the open bounds box, from the source:
if 0.0 < cal_r < 1.0 and 10.0 < cal_K < 120.0 and 0.1 < cal_sigma < 30.0
and 0.1 < cal_ic < 20.0: return 0.0; return -np.inf. -/
noncomputable def log_prior (theta : Theta4) : EReal :=
  if 0.0 < theta.r ∧ theta.r < 1.0 ∧ 10.0 < theta.K ∧ theta.K < 120.0 ∧
     0.1 < theta.sigma ∧ theta.sigma < 30.0 ∧ 0.1 < theta.ic ∧ theta.ic < 20.0
  then (0 : EReal) else ⊥

/-- Log-posterior, from the source:
lp = log_prior(theta); if not np.isfinite(lp): return -np.inf;
return lp + log_likelihood_ic(theta, times, y).
Since lp is either 0.0 or -inf, the isfinite test is exactly lp = ⊥. -/
noncomputable def log_probability (odeintF : OdeIntegrator) (theta : Theta4)
    (times y : List ℝ) : EReal :=
  let lp := log_prior theta
  if lp = ⊥ then (⊥ : EReal)
  else lp + ((log_likelihood_ic odeintF theta times y : ℝ) : EReal)

/-- Modelled from the spec: the mathematical Gaussian log-likelihood
formula of section 4.3, log L = -1/2 * sum of
[ log(2*pi) + log(sigma^2) + (D_i - Y_i)^2 / sigma^2 ], written
following the spec words, to be compared with the source functions. -/
noncomputable def gaussLogLikSpec (sigma : ℝ) (D Y : List ℝ) : ℝ :=
  -(1 / 2) * (((D.zip Y).map
    (fun p => Real.log (2 * Real.pi) + Real.log (sigma ^ 2)
      + (p.1 - p.2) ^ 2 / sigma ^ 2)).sum)

/-- Clipping step of the synthetic data generator, from the source line
yobs[yobs < 0] = 0 applied to a one-compartment array. -/
noncomputable def clipNonneg (vals : List ℝ) : List ℝ :=
  vals.map (fun v => if v < 0 then 0 else v)

/-- Clipping step for the two-compartment (tumor, drug) array of the
exercise scenario: yobs[yobs < 0] = 0 acts entrywise on both columns. -/
noncomputable def clipNonneg2 (vals : List (ℝ × ℝ)) : List (ℝ × ℝ) :=
  vals.map (fun p => (if p.1 < 0 then 0 else p.1, if p.2 < 0 then 0 else p.2))

/-- Interface of the global numpy pseudo-random generator: a state type S,
np.random.seed resetting the state from an integer seed, and a normal
draw consuming one state and producing a sample together with the next
state.  The numpy implementation is an arbitrary but fixed instance. -/
structure RNG (S : Type) where
  seed : ℕ → S
  normal : S → ℝ → ℝ → ℝ × S

/-- Sequence of normal draws np.random.normal(y, sigma): one draw per
entry of the mean array y, threading the generator state left to right,
as numpy fills the output array from a single global state. -/
def normalDraws {S : Type} (g : RNG S) (sigma : ℝ) :
    S → List ℝ → List ℝ × S
  | s, [] => ([], s)
  | s, m :: ms =>
    let d := g.normal s m sigma
    let rest := normalDraws g sigma d.2 ms
    (d.1 :: rest.1, rest.2)

/-- Synthetic data generator of the first scenario, from the source:
np.random.seed(2021); yobs = np.random.normal(y, true_sigma);
yobs[yobs < 0] = 0.  The argument s0 is the state the global generator
happens to hold before the call; np.random.seed(2021) overwrites it. -/
noncomputable def yobsGen {S : Type} (g : RNG S) (s0 : S) (y : List ℝ)
    (sigma : ℝ) : List ℝ :=
  let s1 := g.seed 2021
  clipNonneg (normalDraws g sigma s1 y).1

/-- Right-hand side of the exercise (tumor, drug) model, from the source:
tumor = theta[0]*y[0]*(1.0 - y[0]/theta[1]) - theta[2]*y[0]*y[1];
drug = -theta[3]*y[0]*y[1]; return [tumor, drug].
theta is kept as an arbitrary slot map ℕ → ℝ to record exactly which
slots the body reads. -/
noncomputable def treated_tumor (y : ℝ × ℝ) (t : ℝ) (theta : ℕ → ℝ) : ℝ × ℝ :=
  let tumor := theta 0 * y.1 * (1.0 - y.1 / theta 1) - theta 2 * y.1 * y.2;
  let drug := -theta 3 * y.1 * y.2;
  (tumor, drug)

/-- Closed-form solution of the logistic initial value problem
dN/dt = r N (1 - N/K), N(0) = N0, used as the exact model of what the
adaptive integrator odeint approximates on control_tumor. -/
noncomputable def logisticSol (r K N0 : ℝ) (t : ℝ) : ℝ :=
  K / (1 + (K - N0) / N0 * Real.exp (-(r * t)))

/-- Modelled from the spec: scipy.integrate.odeint (an external
collaborator, section 6) specialized to the logistic right-hand side,
returning the exact solution trajectory over the time grid. -/
noncomputable def odeintLogistic : OdeIntegrator :=
  fun _rhs y0 times p => times.map (logisticSol p.1 p.2 y0)

/-- The bounds box tested by log_prior, as a predicate. -/
def inBox (theta : Theta4) : Prop :=
  0.0 < theta.r ∧ theta.r < 1.0 ∧ 10.0 < theta.K ∧ theta.K < 120.0 ∧
  0.1 < theta.sigma ∧ theta.sigma < 30.0 ∧ 0.1 < theta.ic ∧ theta.ic < 20.0

theorem log_prior_eq_bot_of_not_inBox (theta : Theta4) (h : ¬ inBox theta) :
    log_prior theta = ⊥ := by
  unfold log_prior
  exact if_neg h

theorem log_prior_eq_zero_of_inBox (theta : Theta4) (h : inBox theta) :
    log_prior theta = 0 := by
  unfold log_prior
  exact if_pos h

theorem log_probability_eq_bot_of_prior_bot (odeintF : OdeIntegrator)
    (theta : Theta4) (times y : List ℝ) (h : log_prior theta = ⊥) :
    log_probability odeintF theta times y = ⊥ := by
  unfold log_probability
  simp [h]

theorem inBox_of_prior_ne_bot (theta : Theta4) (h : log_prior theta ≠ ⊥) :
    inBox theta := by
  by_contra hc
  exact h (log_prior_eq_bot_of_not_inBox theta hc)

/-- C1: if any component of theta lies outside the declared open bounds
box, then log_probability is -∞ for every dataset, and the result is
⊥ uniformly in the integrator — the likelihood and the forward model
are never consulted, because log_prior theta is already ⊥. -/
theorem log_probability_out_of_bounds (theta : Theta4)
    (h : ¬ (0.0 < theta.r ∧ theta.r < 1.0) ∨ ¬ (10.0 < theta.K ∧ theta.K < 120.0) ∨
         ¬ (0.1 < theta.sigma ∧ theta.sigma < 30.0) ∨ ¬ (0.1 < theta.ic ∧ theta.ic < 20.0)) :
    log_prior theta = ⊥ ∧
    ∀ (odeintF : OdeIntegrator) (times y : List ℝ),
      log_probability odeintF theta times y = ⊥ := by
  have hp : log_prior theta = ⊥ := by
    apply log_prior_eq_bot_of_not_inBox
    rintro ⟨h1, h2, h3, h4, h5, h6, h7, h8⟩
    rcases h with h | h | h | h
    · exact h ⟨h1, h2⟩
    · exact h ⟨h3, h4⟩
    · exact h ⟨h5, h6⟩
    · exact h ⟨h7, h8⟩
  exact ⟨hp, fun odeintF times y =>
    log_probability_eq_bot_of_prior_bot odeintF theta times y hp⟩

/-- Witness for C1 at theta = (2, 60, 1, 5), whose first component 2
violates r < 1. -/
theorem log_probability_out_of_bounds_witness :
    log_prior ⟨2, 60, 1, 5⟩ = ⊥ ∧
    log_probability (fun _ _ _ _ => []) ⟨2, 60, 1, 5⟩ [] [] = ⊥ := by
  have h := log_probability_out_of_bounds ⟨2, 60, 1, 5⟩ (Or.inl (by norm_num))
  exact ⟨h.1, h.2 (fun _ _ _ _ => []) [] []⟩

/-- C9: the bounds box is open; a theta with any component exactly on a
declared bound is rejected by log_prior, and log_probability is ⊥ there
for every integrator and dataset. -/
theorem log_prior_boundary (theta : Theta4)
    (h : theta.r = 0.0 ∨ theta.r = 1.0 ∨ theta.K = 10.0 ∨ theta.K = 120.0 ∨
         theta.sigma = 0.1 ∨ theta.sigma = 30.0 ∨ theta.ic = 0.1 ∨ theta.ic = 20.0) :
    log_prior theta = ⊥ ∧
    ∀ (odeintF : OdeIntegrator) (times y : List ℝ),
      log_probability odeintF theta times y = ⊥ := by
  have hp : log_prior theta = ⊥ := by
    apply log_prior_eq_bot_of_not_inBox
    rintro ⟨h1, h2, h3, h4, h5, h6, h7, h8⟩
    rcases h with h | h | h | h | h | h | h | h <;> linarith
  exact ⟨hp, fun odeintF times y =>
    log_probability_eq_bot_of_prior_bot odeintF theta times y hp⟩

/-- Witness for C9 at theta = (0, 60, 1, 5), whose first component sits
exactly on the lower bound r = 0. -/
theorem log_prior_boundary_witness :
    log_prior ⟨0, 60, 1, 5⟩ = ⊥ ∧
    log_probability (fun _ _ _ _ => []) ⟨0, 60, 1, 5⟩ [] [] = ⊥ := by
  have h := log_prior_boundary ⟨0, 60, 1, 5⟩ (Or.inl (by norm_num))
  exact ⟨h.1, h.2 (fun _ _ _ _ => []) [] []⟩

/-- C10: whenever log_prior theta is finite, the variance
sigma*sigma computed inside log_likelihood_ic is strictly positive
(hence nonzero), so the division by the variance and the logarithm of
the variance in the likelihood used by log_probability are applied to a
strictly positive argument. -/
theorem variance_pos_of_prior_ne_bot (theta : Theta4)
    (h : log_prior theta ≠ ⊥) :
    0 < variance theta ∧ variance theta ≠ 0 := by
  obtain ⟨_, _, _, _, h5, _, _, _⟩ := inBox_of_prior_ne_bot theta h
  have hs : 0 < theta.sigma := lt_trans (by norm_num) h5
  exact ⟨mul_pos hs hs, (mul_pos hs hs).ne'⟩

/-- Witness for C10 at theta = (0.5, 60, 1, 5), which lies inside the
bounds box. -/
theorem variance_pos_of_prior_ne_bot_witness :
    0 < variance ⟨0.5, 60, 1, 5⟩ ∧ variance ⟨0.5, 60, 1, 5⟩ ≠ 0 := by
  refine variance_pos_of_prior_ne_bot ⟨0.5, 60, 1, 5⟩ ?_
  rw [log_prior_eq_zero_of_inBox ⟨0.5, 60, 1, 5⟩ (by
    refine ⟨by norm_num, by norm_num, by norm_num, by norm_num,
      by norm_num, by norm_num, by norm_num, by norm_num⟩)]
  exact EReal.zero_ne_bot

/-- C5: every entry of the clipped synthetic observation array is
nonnegative, for any noisy values, in both the one-compartment scenario
and the two-compartment (tumor, drug) scenario. -/
theorem clip_entries_nonneg (vals : List ℝ) (pvals : List (ℝ × ℝ))
    (x : ℝ) (p : ℝ × ℝ)
    (hx : x ∈ clipNonneg vals) (hp : p ∈ clipNonneg2 pvals) :
    0 ≤ x ∧ 0 ≤ p.1 ∧ 0 ≤ p.2 := by
  refine ⟨?_, ?_, ?_⟩
  · simp only [clipNonneg, List.mem_map] at hx
    obtain ⟨v, _, rfl⟩ := hx
    split
    · exact le_refl 0
    · exact le_of_not_lt (by assumption)
  all_goals
    simp only [clipNonneg2, List.mem_map] at hp
    obtain ⟨q, _, rfl⟩ := hp
    dsimp only
    split
  · exact le_refl 0
  · exact le_of_not_lt (by assumption)
  · exact le_refl 0
  · exact le_of_not_lt (by assumption)

/-- Witness for C5: the noisy value -3 is clipped to 0 and the noisy
pair (-1, 4) is clipped to (0, 4), both nonnegative. -/
theorem clip_entries_nonneg_witness :
    0 ≤ (0 : ℝ) ∧ 0 ≤ ((0, 4) : ℝ × ℝ).1 ∧ 0 ≤ ((0, 4) : ℝ × ℝ).2 := by
  refine clip_entries_nonneg [-3] [(-1, 4)] 0 (0, 4) ?_ ?_
  · simp only [clipNonneg, List.map, List.mem_singleton]
    norm_num
  · simp only [clipNonneg2, List.map, List.mem_singleton]
    norm_num

/-- C6: the synthetic data generator is deterministic given the seed:
its output does not depend on the state the global generator held before
np.random.seed(2021), so two runs with the same seed, "true" trajectory,
noise scale, and any ambient RNG states produce the identical array;
the output is the canonical function of the seeded state alone. -/
theorem yobsGen_deterministic {S : Type} (g : RNG S) (s0 s0' : S)
    (y : List ℝ) (sigma : ℝ) :
    yobsGen g s0 y sigma = yobsGen g s0' y sigma ∧
    yobsGen g s0 y sigma = clipNonneg (normalDraws g sigma (g.seed 2021) y).1 :=
  ⟨rfl, rfl⟩

/-- C8: the exercise right-hand side treated_tumor computes exactly
(r*N*(1 - N/K) - f*N*C, -(g*N*C)) from the slots
(r, K, f, g) = (theta 0, theta 1, theta 2, theta 3), and its value is
unchanged by altering every other slot of theta: no drug-production
terms a, b are read. -/
theorem treated_tumor_formula (y : ℝ × ℝ) (t : ℝ) (theta theta' : ℕ → ℝ)
    (h0 : theta 0 = theta' 0) (h1 : theta 1 = theta' 1)
    (h2 : theta 2 = theta' 2) (h3 : theta 3 = theta' 3) :
    treated_tumor y t theta =
      (theta 0 * y.1 * (1 - y.1 / theta 1) - theta 2 * y.1 * y.2,
       -(theta 3 * y.1 * y.2)) ∧
    treated_tumor y t theta = treated_tumor y t theta' := by
  constructor
  · unfold treated_tumor
    refine Prod.ext ?_ ?_ <;> norm_num
  · unfold treated_tumor
    rw [h0, h1, h2, h3]

/-- Concrete slot map for the C8 witness: slot i holds the value i. -/
noncomputable def thetaId : ℕ → ℝ := fun i => (i : ℝ)

/-- Concrete slot map agreeing with thetaId on slots 0..3 only. -/
noncomputable def thetaAlt : ℕ → ℝ := fun i => if i < 4 then (i : ℝ) else 99

/-- Witness for C8 with the slot maps thetaId and thetaAlt, which agree
on slots 0..3 but differ everywhere else. -/
theorem treated_tumor_formula_witness :
    treated_tumor (1, 2) 0 thetaId =
      (thetaId 0 * ((1 : ℝ), (2 : ℝ)).1 *
        (1 - ((1 : ℝ), (2 : ℝ)).1 / thetaId 1) -
        thetaId 2 * ((1 : ℝ), (2 : ℝ)).1 * ((1 : ℝ), (2 : ℝ)).2,
       -(thetaId 3 * ((1 : ℝ), (2 : ℝ)).1 * ((1 : ℝ), (2 : ℝ)).2)) ∧
    treated_tumor (1, 2) 0 thetaId = treated_tumor (1, 2) 0 thetaAlt := by
  refine treated_tumor_formula (1, 2) 0 thetaId thetaAlt ?_ ?_ ?_ ?_ <;>
    norm_num [thetaId, thetaAlt]

/-- C2 support: the two mapped summand functions agree pointwise. -/
theorem summand_eq (sigma : ℝ) :
    (fun p : ℝ × ℝ => Real.log (2 * Real.pi) + Real.log (sigma * sigma)
        + (p.1 - p.2) ^ 2 / (sigma * sigma)) =
      fun p : ℝ × ℝ => Real.log (2 * Real.pi) + Real.log (sigma ^ 2)
        + (p.1 - p.2) ^ 2 / sigma ^ 2 := by
  funext p
  rw [pow_two sigma]

/-- C2 support: the reordered summands of log_likelihood_ic agree
pointwise with the spec formula summands. -/
theorem summand_ic_eq (sigma : ℝ) :
    (fun p : ℝ × ℝ => (p.1 - p.2) ^ 2 / (sigma * sigma)
        + Real.log (2 * Real.pi) + Real.log (sigma * sigma)) =
      fun p : ℝ × ℝ => Real.log (2 * Real.pi) + Real.log (sigma ^ 2)
        + (p.1 - p.2) ^ 2 / sigma ^ 2 := by
  funext p
  rw [pow_two sigma]
  ring

/-- C2: for every integrator outcome and dataset, log_likelihood and
log_likelihood_ic return exactly
-1/2 * sum over residuals of [log(2 pi) + log(sigma^2) + (D - Y)^2 / sigma^2],
with Y the trajectory produced by the integrator (from y[0] in the
3-parameter run, from the calibrated ic in the 4-parameter run) and
sigma the noise slot of theta. -/
theorem log_likelihood_matches_spec (odeintF : OdeIntegrator)
    (theta3 : Theta3) (theta4 : Theta4) (times y : List ℝ)
    (hs3 : 0 < theta3.sigma) (hs4 : 0 < theta4.sigma) :
    log_likelihood odeintF theta3 times y =
      gaussLogLikSpec theta3.sigma y
        (odeintF control_tumor (y.headD 0) times (theta3.r, theta3.K)) ∧
    log_likelihood_ic odeintF theta4 times y =
      gaussLogLikSpec theta4.sigma y
        (odeintF control_tumor theta4.ic times (theta4.r, theta4.K)) := by
  constructor
  · simp only [log_likelihood, gaussLogLikSpec]
    rw [summand_eq theta3.sigma]
    norm_num
  · simp only [log_likelihood_ic, gaussLogLikSpec, variance]
    rw [summand_ic_eq theta4.sigma]
    norm_num

/-- Witness for C2 at theta = (0.25, 60, 1) resp. (0.25, 60, 1, 1),
times = [0, 1], data = [1, 2], with the exact logistic integrator. -/
theorem log_likelihood_matches_spec_witness :
    log_likelihood odeintLogistic (Theta3.mk 0.25 60 1) [0, 1] [1, 2] =
      gaussLogLikSpec (Theta3.mk 0.25 60 1).sigma [1, 2]
        (odeintLogistic control_tumor (([1, 2] : List ℝ).headD 0) [0, 1]
          ((Theta3.mk 0.25 60 1).r, (Theta3.mk 0.25 60 1).K)) ∧
    log_likelihood_ic odeintLogistic (Theta4.mk 0.25 60 1 1) [0, 1] [1, 2] =
      gaussLogLikSpec (Theta4.mk 0.25 60 1 1).sigma [1, 2]
        (odeintLogistic control_tumor (Theta4.mk 0.25 60 1 1).ic [0, 1]
          ((Theta4.mk 0.25 60 1 1).r, (Theta4.mk 0.25 60 1 1).K)) :=
  log_likelihood_matches_spec odeintLogistic (Theta3.mk 0.25 60 1)
    (Theta4.mk 0.25 60 1 1) [0, 1] [1, 2] one_pos one_pos

/-- C3 counterexample: at theta = (2, 60, 3.6), whose growth-rate slot 2
violates the bound r < 1, the objective nll is still an ordinary real
number, not +∞: the claim that nll returns +∞ outside the bounds box is
false on the code. -/
theorem nll_out_of_bounds_counterexample :
    ¬ ((0 : ℝ) < 2 ∧ (2 : ℝ) < 1) ∧
    ((nll odeintLogistic (Theta3.mk 2 60 3.6) [0, 1] [1, 2] : ℝ) : EReal) ≠ ⊤ :=
  ⟨by norm_num, EReal.coe_ne_top _⟩

/-- C3 amended: nll performs no bounds check of its own; even at a theta
outside the declared bounds box it simply negates log_likelihood and
returns a real number (never +∞ for a real-valued trajectory); the box
constraints are enforced by the bounds argument of
scipy.optimize.minimize, not by the objective. -/
theorem nll_no_bounds_check (odeintF : OdeIntegrator) (theta : Theta3)
    (times y : List ℝ)
    (h : ¬ (0.0 < theta.r ∧ theta.r < 1.0) ∨
         ¬ (10.0 < theta.K ∧ theta.K < 120.0) ∨
         ¬ (0.1 < theta.sigma ∧ theta.sigma < 30.0)) :
    nll odeintF theta times y = -(log_likelihood odeintF theta times y) ∧
    ((nll odeintF theta times y : ℝ) : EReal) ≠ ⊤ :=
  ⟨rfl, EReal.coe_ne_top _⟩

/-- Witness for the amended C3 at theta = (2, 60, 3.6). -/
theorem nll_no_bounds_check_witness :
    nll odeintLogistic (Theta3.mk 2 60 3.6) [0, 1] [1, 2] =
      -(log_likelihood odeintLogistic (Theta3.mk 2 60 3.6) [0, 1] [1, 2]) ∧
    ((nll odeintLogistic (Theta3.mk 2 60 3.6) [0, 1] [1, 2] : ℝ) : EReal) ≠ ⊤ :=
  nll_no_bounds_check odeintLogistic (Theta3.mk 2 60 3.6) [0, 1] [1, 2]
    (Or.inl (by norm_num))

/-- C7 support: the denominator of the closed-form logistic solution is
strictly positive whenever 0 < N0 < K. -/
theorem logistic_denom_pos (r K N0 : ℝ) (h0 : 0 < N0) (hN : N0 < K)
    (t : ℝ) : 0 < 1 + (K - N0) / N0 * Real.exp (-(r * t)) := by
  have hA : 0 < (K - N0) / N0 := div_pos (sub_pos.2 hN) h0
  positivity

/-- C7 support: the closed-form solution starts at the initial state. -/
theorem logisticSol_zero (r K N0 : ℝ) (hK : 0 < K) (h0 : 0 < N0)
    (hN : N0 < K) : logisticSol r K N0 0 = N0 := by
  have hA : 0 < (K - N0) / N0 := div_pos (sub_pos.2 hN) h0
  unfold logisticSol
  rw [mul_zero, neg_zero, Real.exp_zero, mul_one]
  have hdpos : (0 : ℝ) < 1 + (K - N0) / N0 := by linarith
  rw [div_eq_iff hdpos.ne']
  field_simp

/-- C7 support: the closed-form solution satisfies the repository's
right-hand side control_tumor at every time. -/
theorem logisticSol_hasDerivAt (r K N0 : ℝ) (hK : 0 < K) (h0 : 0 < N0)
    (hN : N0 < K) (t : ℝ) :
    HasDerivAt (logisticSol r K N0)
      (control_tumor (logisticSol r K N0 t) t (r, K)) t := by
  have hA : 0 < (K - N0) / N0 := div_pos (sub_pos.2 hN) h0
  have hden := logistic_denom_pos r K N0 h0 hN t
  have h1 : HasDerivAt (fun u : ℝ => -(r * u)) (-r) t := by
    simpa using ((hasDerivAt_id t).const_mul r).neg
  have he : HasDerivAt (fun u : ℝ => Real.exp (-(r * u)))
      (Real.exp (-(r * t)) * (-r)) t := h1.exp
  have hd : HasDerivAt (fun u : ℝ => 1 + (K - N0) / N0 * Real.exp (-(r * u)))
      ((K - N0) / N0 * (Real.exp (-(r * t)) * (-r))) t := by
    simpa using (he.const_mul ((K - N0) / N0)).const_add 1
  have hq := (hasDerivAt_const t K).div hd hden.ne'
  unfold logisticSol control_tumor
  have hE : 0 < Real.exp (-(r * t)) := Real.exp_pos _
  have hd2 : 0 < N0 + (K - N0) * Real.exp (-(r * t)) := by
    have := mul_pos (sub_pos.2 hN) hE
    linarith
  convert hq using 1
  field_simp [hd2.ne', hK.ne', h0.ne', hden.ne']
  ring

/-- C7 support: the closed-form solution is strictly increasing in time
when r > 0, K > 0 and 0 < N0 < K. -/
theorem logisticSol_strictMono (r K N0 : ℝ) (hr : 0 < r) (hK : 0 < K)
    (h0 : 0 < N0) (hN : N0 < K) : StrictMono (logisticSol r K N0) := by
  intro s t hst
  have hA : 0 < (K - N0) / N0 := div_pos (sub_pos.2 hN) h0
  have he : Real.exp (-(r * t)) < Real.exp (-(r * s)) := by
    apply Real.exp_lt_exp.2
    have := mul_lt_mul_of_pos_left hst hr
    linarith
  have hmul := mul_lt_mul_of_pos_left he hA
  have hdt := logistic_denom_pos r K N0 h0 hN t
  unfold logisticSol
  exact div_lt_div_of_pos_left hK hdt (by linarith)

/-- C7 support: the closed-form solution tends to the carrying capacity
K as time grows. -/
theorem logisticSol_tendsto (r K N0 : ℝ) (hr : 0 < r) :
    Filter.Tendsto (logisticSol r K N0) Filter.atTop (nhds K) := by
  unfold logisticSol
  have h1 : Filter.Tendsto (fun t : ℝ => r * t) Filter.atTop Filter.atTop :=
    Filter.Tendsto.const_mul_atTop hr Filter.tendsto_id
  have h2 : Filter.Tendsto (fun t : ℝ => -(r * t)) Filter.atTop Filter.atBot :=
    Filter.tendsto_neg_atTop_atBot.comp h1
  have h3 : Filter.Tendsto (fun t : ℝ => Real.exp (-(r * t)))
      Filter.atTop (nhds 0) := Real.tendsto_exp_atBot.comp h2
  have h4 : Filter.Tendsto
      (fun t : ℝ => 1 + (K - N0) / N0 * Real.exp (-(r * t)))
      Filter.atTop (nhds 1) := by
    have h5 := Filter.Tendsto.const_mul ((K - N0) / N0) h3
    simpa using Filter.Tendsto.add (tendsto_const_nhds (x := (1 : ℝ))) h5
  have h6 := Filter.Tendsto.div
    (tendsto_const_nhds (x := K)) h4 one_ne_zero
  simpa using h6

/-- C7: for r > 0, K > 0, and initial state N0 strictly between 0 and K,
the solution of the repository's logistic right-hand side control_tumor
starts at N0, is strictly increasing in time (hence the sampled
trajectory over any strictly increasing time grid is strictly
increasing), and tends to K as time grows. -/
theorem logistic_trajectory_mono_limit (r K N0 : ℝ)
    (hr : 0 < r) (hK : 0 < K) (h0 : 0 < N0) (hN : N0 < K) :
    logisticSol r K N0 0 = N0 ∧
    (∀ t, HasDerivAt (logisticSol r K N0)
        (control_tumor (logisticSol r K N0 t) t (r, K)) t) ∧
    StrictMono (logisticSol r K N0) ∧
    (∀ times : List ℝ, times.Pairwise (fun a b => a < b) →
      (odeintLogistic control_tumor N0 times (r, K)).Pairwise
        (fun a b => a < b)) ∧
    Filter.Tendsto (logisticSol r K N0) Filter.atTop (nhds K) := by
  refine ⟨logisticSol_zero r K N0 hK h0 hN,
    logisticSol_hasDerivAt r K N0 hK h0 hN,
    logisticSol_strictMono r K N0 hr hK h0 hN, ?_,
    logisticSol_tendsto r K N0 hr⟩
  intro times ht
  exact ht.map (logisticSol r K N0)
    (fun a b hab => logisticSol_strictMono r K N0 hr hK h0 hN hab)

/-- Witness for C7 at r = 1, K = 2, N0 = 1. -/
theorem logistic_trajectory_mono_limit_witness :
    logisticSol 1 2 1 0 = 1 ∧
    (∀ t, HasDerivAt (logisticSol 1 2 1)
        (control_tumor (logisticSol 1 2 1 t) t (1, 2)) t) ∧
    StrictMono (logisticSol 1 2 1) ∧
    (∀ times : List ℝ, times.Pairwise (fun a b => a < b) →
      (odeintLogistic control_tumor 1 times (1, 2)).Pairwise
        (fun a b => a < b)) ∧
    Filter.Tendsto (logisticSol 1 2 1) Filter.atTop (nhds 2) :=
  logistic_trajectory_mono_limit 1 2 1 one_pos two_pos one_pos one_lt_two

end ISMCO
